import Mathlib

/-!
# A shallow embedding of the `lisptest2.py` AST evaluator

The source program parses a small parenthesized Lisp-like language with
PLY and evaluates the resulting AST with a single recursive procedure
`postorder`, using three module-level globals:

* `env`   — the name-to-value dictionary,
* `parms` — the parameter-name list of the function node most recently
  entered,
* `args`  — the argument-value list of the call most recently entered.

This file embeds the AST node classes and `postorder` directly.  Python
runtime values that a node's `value` slot can hold are integers, booleans,
`None` (the initial slot content, kept when an identifier lookup misses),
and `FunNode` objects; the last are embedded as `Val.clos` carrying the
parameter list and body (Python instead stores a reference to the node
object; no property proved here depends on object identity, and the one
place the difference could show — `==` between two distinct but
structurally equal `FunNode`s — is noted at `pyEq`).  Python exceptions
that `postorder` can raise (`TypeError` from arithmetic on a non-number,
`ZeroDivisionError`, `RecursionError`) are embedded as an `Except` error;
recursion through the environment makes the evaluator non-terminating
(e.g. the self-application combinator), so evaluation carries a fuel
counter, decremented on every recursive entry exactly as each Python call
consumes a stack frame, with exhaustion mapped to `Err.recursionLimit`.
-/

/-- AST nodes, one constructor per node class of the source.  The source's
single `BinaryOpNode` stores as `right` either one node (productions
`- / mod > <`) or a Python list of nodes (productions `+ * =`, built from
`exp_list`); `postorder` dispatches on `isinstance(node.right, list)`.
Those two shapes are the constructors `binaryOp` and `binaryOpV`. -/
inductive Node where
  | number (n : Int)
  | boolLit (b : Bool)
  | identifier (name : String)
  | defineStmt (name : String) (e : Node)
  | printStmt (e : Node) (isNum : Bool)
  | binaryOp (op : String) (left : Node) (right : Node)
  | binaryOpV (op : String) (left : Node) (rights : List Node)
  | logicalOp (op : String) (operands : List Node)
  | ifExp (c : Node) (t : Node) (f : Node)
  | funExp (params : List String) (body : Node)
  | funCall (func : Node) (argEs : List Node)
deriving Repr

mutual

/-- Structural equality of nodes, used by `pyEq` below for the one case
Python decides by object identity. -/
def nodeBeq : Node → Node → Bool
  | .number a, .number b => a = b
  | .boolLit a, .boolLit b => a = b
  | .identifier a, .identifier b => a = b
  | .defineStmt a e, .defineStmt b e' => a = b && nodeBeq e e'
  | .printStmt e a, .printStmt e' b => a = b && nodeBeq e e'
  | .binaryOp o l r, .binaryOp o' l' r' => o = o' && nodeBeq l l' && nodeBeq r r'
  | .binaryOpV o l rs, .binaryOpV o' l' rs' =>
      o = o' && nodeBeq l l' && nodesBeq rs rs'
  | .logicalOp o os, .logicalOp o' os' => o = o' && nodesBeq os os'
  | .ifExp c t f, .ifExp c' t' f' => nodeBeq c c' && nodeBeq t t' && nodeBeq f f'
  | .funExp ps b, .funExp ps' b' => ps = ps' && nodeBeq b b'
  | .funCall f as, .funCall f' as' => nodeBeq f f' && nodesBeq as as'
  | _, _ => false

/-- Structural equality of node lists. -/
def nodesBeq : List Node → List Node → Bool
  | [], [] => true
  | n :: ns, m :: ms => nodeBeq n m && nodesBeq ns ms
  | _, _ => false

end

/-- Python runtime values a `value` slot can hold. -/
inductive Val where
  | none
  | int (n : Int)
  | bool (b : Bool)
  | clos (params : List String) (body : Node)
deriving Repr

/-- Python exceptions `postorder` can raise, plus stack exhaustion. -/
inductive Err where
  | typeError
  | zeroDivision
  | recursionLimit
deriving Repr, DecidableEq

/-- The three module-level globals, plus the lines printed so far. -/
structure St where
  env : List (String × Val)
  parms : List String
  args : List Val
  out : List String
deriving Repr

/-- Dictionary lookup, `env[name]` guarded by `name in env`. -/
def envLookup : List (String × Val) → String → Option Val
  | [], _ => Option.none
  | (k, v) :: rest, x => if k = x then some v else envLookup rest x

/-- Dictionary update `env[k] = v`: overwrite in place or append. -/
def envSet : List (String × Val) → String → Val → List (String × Val)
  | [], k, v => [(k, v)]
  | (k', v') :: rest, k, v =>
      if k' = k then (k, v) :: rest else (k', v') :: envSet rest k v

/-- The environment the call branch of the `FunNode` case builds:
`env.clear()` followed by `env[parms[i]] = args[i]` for each `i`. -/
def buildEnv (params : List String) (args : List Val) : List (String × Val) :=
  (List.zip params args).foldl (fun e pv => envSet e pv.1 pv.2) []

/-- Python truthiness of the embedded values. -/
def truthy : Val → Bool
  | .none => false
  | .int n => n ≠ 0
  | .bool b => b
  | .clos _ _ => true

/-- Python `x == False` on the embedded values (`0 == False` holds). -/
def eqFalseV : Val → Bool
  | .bool b => !b
  | .int n => n = 0
  | _ => false

/-- Python `x == True` on the embedded values (`1 == True` holds). -/
def eqTrueV : Val → Bool
  | .bool b => b
  | .int n => n = 1
  | _ => false

/-- Python `a and b`: `b` when `a` is truthy, else `a`. -/
def pyAnd (a b : Val) : Val := if truthy a then b else a

/-- Python `a or b`: `a` when `a` is truthy, else `b`. -/
def pyOr (a b : Val) : Val := if truthy a then a else b

/-- Python `==` on the embedded values: booleans compare equal to the
integers 0/1, `None` only to itself, kinds otherwise unequal.  Two
function values compare structurally here, where Python compares the
`FunNode` objects by identity; no theorem below touches that case. -/
def pyEq : Val → Val → Bool
  | .int a, .int b => a = b
  | .int a, .bool b => a = (if b then 1 else 0)
  | .bool a, .int b => (if a then 1 else 0) = b
  | .bool a, .bool b => a = b
  | .none, .none => true
  | .clos p b, .clos p' b' => p = p' && nodeBeq b b'
  | _, _ => false

/-- Coercion an arithmetic or order operator applies to an operand:
integers pass through, Python booleans are the integers 1/0, and any
other value raises `TypeError` (`None + 1`, `FunNode + 1` do). -/
def toArith : Val → Except Err Int
  | .int n => .ok n
  | .bool b => .ok (if b then 1 else 0)
  | _ => .error .typeError

/-- The reduction `postorder` performs for a `BinaryOpNode` whose `right`
is a single node (`- / mod > <`; the `+ * =` lines also have this branch,
though the parser only ever sends them a list).  Python `//` and `%` are
floor division and floor modulus, raising `ZeroDivisionError` on a zero
divisor; `>` and `<` compare after boolean coercion; `==` never raises.
An operator matching no `elif` leaves the slot `None`. -/
def applyBin (op : String) (vl vr : Val) : Except Err Val :=
  if op = "+" then do
    let l ← toArith vl
    let r ← toArith vr
    .ok (.int (l + r))
  else if op = "-" then do
    let l ← toArith vl
    let r ← toArith vr
    .ok (.int (l - r))
  else if op = "*" then do
    let l ← toArith vl
    let r ← toArith vr
    .ok (.int (l * r))
  else if op = "/" then do
    let l ← toArith vl
    let r ← toArith vr
    if r = 0 then .error .zeroDivision else .ok (.int (Int.fdiv l r))
  else if op = "mod" then do
    let l ← toArith vl
    let r ← toArith vr
    if r = 0 then .error .zeroDivision else .ok (.int (Int.fmod l r))
  else if op = ">" then do
    let l ← toArith vl
    let r ← toArith vr
    .ok (.bool (decide (l > r)))
  else if op = "<" then do
    let l ← toArith vl
    let r ← toArith vr
    .ok (.bool (decide (l < r)))
  else if op = "=" then
    .ok (.bool (pyEq vl vr))
  else
    .ok .none

/-- `sum = 0` then `sum += num.value` over the right-operand list. -/
def sumVals : List Val → Except Err Int
  | [] => .ok 0
  | v :: vs => do
      let n ← toArith v
      let rest ← sumVals vs
      .ok (n + rest)

/-- `product = 1` then `product *= num.value` over the right-operand list. -/
def prodVals : List Val → Except Err Int
  | [] => .ok 1
  | v :: vs => do
      let n ← toArith v
      let rest ← prodVals vs
      .ok (n * rest)

/-- The reduction for a `BinaryOpNode` whose `right` is a list (`+ * =`):
`+` adds the left value to the sum of the list, `*` multiplies it with
the product, `=` is true iff the left value `==` every list element.
The remaining operators never receive a list from the parser; Python
would raise there (a list has no `value` attribute), embedded as an
error.  Note the source folds the right-operand list *first* and only
then touches the left value. -/
def applyVar (op : String) (vl : Val) (vs : List Val) : Except Err Val :=
  if op = "+" then do
    let s ← sumVals vs
    let l ← toArith vl
    .ok (.int (l + s))
  else if op = "*" then do
    let p ← prodVals vs
    let l ← toArith vl
    .ok (.int (l * p))
  else if op = "=" then
    .ok (.bool (vs.all (fun v => pyEq vl v)))
  else
    .error .typeError

/-- The `and` reduction loop: `flag = True`, then for each operand value
`if flag == False: break` and `flag = flag and operand.value`. -/
def andLoop : Val → List Val → Val
  | flag, [] => flag
  | flag, v :: vs => if eqFalseV flag then flag else andLoop (pyAnd flag v) vs

/-- The `or` reduction loop: `flag = False`, then for each operand value
`if flag == True: break` and `flag = flag or operand.value`. -/
def orLoop : Val → List Val → Val
  | flag, [] => flag
  | flag, v :: vs => if eqTrueV flag then flag else orLoop (pyOr flag v) vs

/-- The reduction for a `LogicalOpNode`, applied after *all* operands have
been evaluated.  `not` negates the truthiness of the first operand (the
parser always supplies exactly one; an empty list would raise in Python,
embedded as an error).  An unknown operator leaves the slot `None`. -/
def applyLogical (op : String) (vs : List Val) : Except Err Val :=
  if op = "and" then .ok (andLoop (.bool true) vs)
  else if op = "or" then .ok (orLoop (.bool false) vs)
  else if op = "not" then
    match vs with
    | v :: _ => .ok (.bool (!truthy v))
    | [] => .error .typeError
  else
    .ok .none

/-- The line a `PrintNode` emits: `print-num` prints Python `str` of the
value, `print-bool` prints `#t`/`#f` by truthiness.  For a function value
Python's `str` would show an object address; no program the claims touch
prints one, and the placeholder below stands in for that text. -/
def printLine (isNum : Bool) (v : Val) : String :=
  if isNum then
    match v with
    | .int n => toString n
    | .bool b => if b then "True" else "False"
    | .none => "None"
    | .clos _ _ => "<FunNode>"
  else
    if truthy v then "#t" else "#f"

mutual

/-- The embedding of `postorder` on a single node.  Fuel is spent on every
entry, as every Python call consumes a stack frame; `0` is the embedded
`RecursionError`.  Branch for branch:

* `NumberNode`/`BoolNode`: the slot already holds the literal.
* `IdentifierNode`: the slot becomes `env[name]` when present and keeps
  its initial `None` otherwise — no exception is raised.
* `DefineNode`: evaluates the value expression, then `env[name] = value`
  (the preceding `postorder(node.identifier)` only touches that
  identifier's own slot, which nothing reads).
* `PrintNode`: evaluates the operand and appends one output line.
* `BinaryOpNode`: left, then right (single or list), then the reduction.
* `LogicalOpNode`: every operand, then the reduction loop.
* `IfNode`: condition, true branch and false branch are all three
  evaluated; the condition's truthiness selects among the two values.
* `FunNode` with parameters: `parms` is replaced by the parameter list;
  if its length equals that of the global `args` the body is evaluated
  against the fresh dictionary `buildEnv params args` and the saved
  environment is then restored verbatim, otherwise the slot becomes the
  function value itself (`node.value = node`) and the body is untouched.
* `FunNode` without parameters: the body is evaluated in place, in
  whatever environment is current.
* `FunCallNode` on a literal: `args` is cleared, each argument expression
  is evaluated and its value appended to `args`, then the `FunNode` is
  evaluated and its value taken.
* `FunCallNode` on an identifier: same argument pass; an absent callee
  name leaves the slot `None` (no exception), a bound `FunNode` is
  evaluated as above, any other bound value is the call's value.
  The parser produces no other callee shape; Python would raise on one. -/
def evalNode : Nat → Node → St → Except Err (Val × St)
  | 0, _, _ => .error .recursionLimit
  | fuel + 1, node, s =>
    match node with
    | .number n => .ok (.int n, s)
    | .boolLit b => .ok (.bool b, s)
    | .identifier x => .ok ((envLookup s.env x).getD .none, s)
    | .defineStmt x e => do
        let (v, s') ← evalNode fuel e s
        .ok (.none, { s' with env := envSet s'.env x v })
    | .printStmt e isNum => do
        let (v, s') ← evalNode fuel e s
        .ok (.none, { s' with out := s'.out ++ [printLine isNum v] })
    | .binaryOp op l r => do
        let (vl, s1) ← evalNode fuel l s
        let (vr, s2) ← evalNode fuel r s1
        let v ← applyBin op vl vr
        .ok (v, s2)
    | .binaryOpV op l rs => do
        let (vl, s1) ← evalNode fuel l s
        let (vs, s2) ← evalSeq fuel rs s1
        let v ← applyVar op vl vs
        .ok (v, s2)
    | .logicalOp op ops => do
        let (vs, s') ← evalSeq fuel ops s
        let v ← applyLogical op vs
        .ok (v, s')
    | .ifExp c t f => do
        let (vc, s1) ← evalNode fuel c s
        let (vt, s2) ← evalNode fuel t s1
        let (vf, s3) ← evalNode fuel f s2
        .ok (if truthy vc then vt else vf, s3)
    | .funExp params body =>
        if params.isEmpty then
          evalNode fuel body s
        else
          let s1 := { s with parms := params }
          if params.length = s1.args.length then do
            let (vb, s2) ← evalNode fuel body { s1 with env := buildEnv params s1.args }
            .ok (vb, { s2 with env := s1.env })
          else
            .ok (.clos params body, s1)
    | .funCall f argEs =>
        match f with
        | .funExp params body => do
            let s2 ← evalArgs fuel argEs { s with args := [] }
            evalNode fuel (.funExp params body) s2
        | .identifier name => do
            let s2 ← evalArgs fuel argEs { s with args := [] }
            match envLookup s2.env name with
            | Option.none => .ok (.none, s2)
            | some (.clos params body) => evalNode fuel (.funExp params body) s2
            | some w => .ok (w, s2)
        | _ => .error .typeError

/-- The `for n in node: postorder(n)` pass over a node list where the
values are read back from the slots afterwards (logical operands, the
right-operand list of `+ * =`). -/
def evalSeq : Nat → List Node → St → Except Err (List Val × St)
  | 0, _, _ => .error .recursionLimit
  | _ + 1, [], s => .ok ([], s)
  | fuel + 1, e :: es, s => do
      let (v, s') ← evalNode fuel e s
      let (vs, s'') ← evalSeq fuel es s'
      .ok (v :: vs, s'')

/-- The argument pass of `FunCallNode`: each argument expression is
evaluated and its value appended to the global `args` — *after* the
evaluation, so a nested call inside an argument, which clears `args`,
discards whatever had been collected so far. -/
def evalArgs : Nat → List Node → St → Except Err St
  | 0, _, _ => .error .recursionLimit
  | _ + 1, [], s => .ok s
  | fuel + 1, e :: es, s => do
      let (v, s') ← evalNode fuel e s
      evalArgs fuel es { s' with args := s'.args ++ [v] }

end

/-- The driver's `postorder(ast)` on the statement list of a program:
each top-level statement in order, values discarded. -/
def runStmts : Nat → List Node → St → Except Err St
  | 0, _, _ => .error .recursionLimit
  | _ + 1, [], s => .ok s
  | fuel + 1, st :: sts, s => do
      let (_, s') ← evalNode fuel st s
      runStmts fuel sts s'

/-- The state at program start: empty `env`, `parms`, `args`, no output. -/
def initSt : St := ⟨[], [], [], []⟩

mutual

/-- `true` when no `DefineNode` occurs anywhere in the tree.  The grammar
puts `define` only at statement level, so every expression — in
particular every function body and print operand — satisfies this. -/
def noDef : Node → Bool
  | .defineStmt _ _ => false
  | .number _ => true
  | .boolLit _ => true
  | .identifier _ => true
  | .printStmt e _ => noDef e
  | .binaryOp _ l r => noDef l && noDef r
  | .binaryOpV _ l rs => noDef l && noDefs rs
  | .logicalOp _ os => noDefs os
  | .ifExp c t f => noDef c && noDef t && noDef f
  | .funExp _ b => noDef b
  | .funCall f as => noDef f && noDefs as

/-- `noDef` over a node list. -/
def noDefs : List Node → Bool
  | [] => true
  | n :: ns => noDef n && noDefs ns

end

/-- A runtime value whose function bodies (if any) contain no `define`. -/
def valOk : Val → Bool
  | .clos _ b => noDef b
  | _ => true

/-- A state all of whose environment entries and pending argument values
are `valOk`.  Every state a grammar-conforming program reaches is. -/
def stOk (s : St) : Bool :=
  s.env.all (fun kv => valOk kv.2) && s.args.all valOk

/-! ## Generalities about `Except` and the environment dictionary -/

/-- Inverting a successful bind in the `Except` monad. -/
theorem bind_eq_ok {α β : Type} {x : Except Err α} {f : α → Except Err β} {b : β}
    (h : (x >>= f) = .ok b) : ∃ a, x = .ok a ∧ f a = .ok b := by
  cases x with
  | error e => simp [Bind.bind, Except.bind] at h
  | ok a => exact ⟨a, rfl, by simpa [Bind.bind, Except.bind] using h⟩

/-- A value found in a dictionary all of whose values satisfy `valOk`
satisfies `valOk`. -/
theorem envLookup_all {env : List (String × Val)} {x : String} {v : Val}
    (hall : env.all (fun kv => valOk kv.2) = true) (h : envLookup env x = some v) :
    valOk v = true := by
  induction env with
  | nil => simp [envLookup] at h
  | cons kv rest ih =>
    obtain ⟨k, w⟩ := kv
    simp only [List.all_cons, Bool.and_eq_true] at hall
    simp only [envLookup] at h
    by_cases hk : k = x
    · rw [if_pos hk] at h; cases h; exact hall.1
    · rw [if_neg hk] at h; exact ih hall.2 h

/-- `envSet` keeps a dictionary `valOk`-closed when the new value is. -/
theorem envSet_all {env : List (String × Val)} {k : String} {v : Val}
    (hall : env.all (fun kv => valOk kv.2) = true) (hv : valOk v = true) :
    (envSet env k v).all (fun kv => valOk kv.2) = true := by
  induction env with
  | nil => simp [envSet, hv]
  | cons kv rest ih =>
    obtain ⟨k', w⟩ := kv
    simp only [List.all_cons, Bool.and_eq_true] at hall
    by_cases hk : k' = k
    · simp [envSet, hk, hv, hall.2]
    · simp [envSet, hk, hall.1, ih hall.2]

/-- Lookup after `envSet`. -/
theorem envLookup_envSet (env : List (String × Val)) (k x : String) (v : Val) :
    envLookup (envSet env k v) x = if k = x then some v else envLookup env x := by
  induction env with
  | nil => simp [envSet, envLookup]
  | cons kv rest ih =>
    obtain ⟨k', w⟩ := kv
    by_cases hk : k' = k
    · subst hk
      by_cases hx : k' = x <;> simp [envSet, envLookup, hx]
    · by_cases hx : k' = x
      · subst hx
        have : ¬ k = k' := fun h => hk h.symm
        simp [envSet, envLookup, hk, this]
      · simp [envSet, envLookup, hk, hx, ih]

/-- The parameter dictionary of a call is `valOk`-closed when the argument
values are. -/
theorem buildEnv_all {params : List String} {args : List Val}
    (h : args.all valOk = true) :
    (buildEnv params args).all (fun kv => valOk kv.2) = true := by
  unfold buildEnv
  have main : ∀ (l : List (String × Val)) (env : List (String × Val)),
      env.all (fun kv => valOk kv.2) = true →
      (∀ pv ∈ l, valOk pv.2 = true) →
      (l.foldl (fun e pv => envSet e pv.1 pv.2) env).all (fun kv => valOk kv.2) = true := by
    intro l
    induction l with
    | nil => intro env he _; simpa using he
    | cons pv rest ih =>
      intro env he hl
      simp only [List.foldl_cons]
      exact ih _ (envSet_all he (hl pv (by simp))) (fun q hq => hl q (by simp [hq]))
  apply main _ _ (by simp)
  intro pv hpv
  obtain ⟨a, b⟩ := pv
  exact List.all_eq_true.mp h b (List.of_mem_zip hpv).2

/-- The parameter dictionary of a call binds nothing but the parameters. -/
theorem buildEnv_lookup_none {params : List String} {args : List Val} {x : String}
    (hx : x ∉ params) :
    envLookup (buildEnv params args) x = Option.none := by
  unfold buildEnv
  have main : ∀ (l : List (String × Val)) (env : List (String × Val)),
      (∀ pv ∈ l, pv.1 ≠ x) →
      envLookup (l.foldl (fun e pv => envSet e pv.1 pv.2) env) x = envLookup env x := by
    intro l
    induction l with
    | nil => intro env _; rfl
    | cons pv rest ih =>
      intro env hl
      simp only [List.foldl_cons]
      rw [ih _ (fun q hq => hl q (by simp [hq])), envLookup_envSet,
        if_neg (hl pv (by simp))]
  rw [main _ _ ?_]
  · rfl
  · intro pv hpv h
    obtain ⟨a, b⟩ := pv
    exact hx (h ▸ (List.of_mem_zip hpv).1)

/-! ## The logical reduction loops -/

/-- On all-boolean operand values the `and` loop computes the conjunction,
its early `break` notwithstanding. -/
theorem andLoop_bools {vs : List Val} (h : ∀ v ∈ vs, ∃ b, v = Val.bool b) :
    ∀ b : Bool, andLoop (.bool b) vs = .bool (b && vs.all truthy) := by
  induction vs with
  | nil => intro b; simp [andLoop]
  | cons v rest ih =>
    intro b
    obtain ⟨c, rfl⟩ := h v (by simp)
    cases b with
    | false => simp [andLoop, eqFalseV]
    | true =>
      have := ih (fun u hu => h u (by simp [hu])) c
      simp [andLoop, eqFalseV, pyAnd, truthy, this]

/-- On all-boolean operand values the `or` loop computes the disjunction,
its early `break` notwithstanding. -/
theorem orLoop_bools {vs : List Val} (h : ∀ v ∈ vs, ∃ b, v = Val.bool b) :
    ∀ b : Bool, orLoop (.bool b) vs = .bool (b || vs.any truthy) := by
  induction vs with
  | nil => intro b; simp [orLoop]
  | cons v rest ih =>
    intro b
    obtain ⟨c, rfl⟩ := h v (by simp)
    cases b with
    | true => simp [orLoop, eqTrueV]
    | false =>
      have := ih (fun u hu => h u (by simp [hu])) c
      simp [orLoop, eqTrueV, pyOr, truthy, this]

/-- The `and` loop only ever returns its flag or an operand value. -/
theorem andLoop_valOk {vs : List Val} :
    ∀ {flag : Val}, valOk flag = true → (∀ v ∈ vs, valOk v = true) →
      valOk (andLoop flag vs) = true := by
  induction vs with
  | nil => intro flag hf _; simpa [andLoop]
  | cons v rest ih =>
    intro flag hf h
    by_cases hb : eqFalseV flag
    · simpa [andLoop, hb]
    · simp only [andLoop, hb, if_false]
      refine ih ?_ (fun u hu => h u (by simp [hu]))
      unfold pyAnd
      by_cases ht : truthy flag <;> simp [ht, hf, h v (by simp)]

/-- The `or` loop only ever returns its flag or an operand value. -/
theorem orLoop_valOk {vs : List Val} :
    ∀ {flag : Val}, valOk flag = true → (∀ v ∈ vs, valOk v = true) →
      valOk (orLoop flag vs) = true := by
  induction vs with
  | nil => intro flag hf _; simpa [orLoop]
  | cons v rest ih =>
    intro flag hf h
    by_cases hb : eqTrueV flag
    · simpa [orLoop, hb]
    · simp only [orLoop, hb, if_false]
      refine ih ?_ (fun u hu => h u (by simp [hu]))
      unfold pyOr
      by_cases ht : truthy flag <;> simp [ht, hf, h v (by simp)]

/-! ## The reductions only produce well-kinded values -/

/-- A successful binary reduction yields an integer, boolean or `None`,
never a function value. -/
theorem applyBin_valOk {op : String} {a b v : Val} (h : applyBin op a b = .ok v) :
    valOk v = true := by
  unfold applyBin at h
  split_ifs at h <;>
    first
      | (cases h <;> rfl)
      | (obtain ⟨l, hl, h⟩ := bind_eq_ok h
         obtain ⟨r, hr, h⟩ := bind_eq_ok h
         first
           | (cases h <;> rfl)
           | (split_ifs at h <;> (cases h <;> rfl)))

/-- A successful variadic reduction yields an integer or a boolean. -/
theorem applyVar_valOk {op : String} {a : Val} {vs : List Val} {v : Val}
    (h : applyVar op a vs = .ok v) : valOk v = true := by
  unfold applyVar at h
  split_ifs at h <;>
    first
      | (cases h <;> rfl)
      | (obtain ⟨p, hp, h⟩ := bind_eq_ok h
         obtain ⟨l, hl, h⟩ := bind_eq_ok h
         cases h <;> rfl)

/-- A successful logical reduction yields a boolean, `None`, or one of the
operand values. -/
theorem applyLogical_valOk {op : String} {vs : List Val} {v : Val}
    (hvs : ∀ u ∈ vs, valOk u = true) (h : applyLogical op vs = .ok v) :
    valOk v = true := by
  unfold applyLogical at h
  split_ifs at h
  · cases h <;> exact andLoop_valOk rfl hvs
  · cases h <;> exact orLoop_valOk rfl hvs
  · cases vs with
    | nil => cases h
    | cons u rest => cases h <;> rfl
  · cases h <;> rfl

/-! ## Floor division and floor modulus -/

/-- For a negative divisor the floor modulus lies in `(b, 0]`. -/
theorem fmod_neg_bounds (a : Int) {b : Int} (hb : b < 0) :
    b < Int.fmod a b ∧ Int.fmod a b ≤ 0 := by
  obtain ⟨n, rfl⟩ : ∃ n : Nat, b = Int.negSucc n := by
    cases b with
    | ofNat m => exact absurd hb (by rw [Int.ofNat_eq_coe]; omega)
    | negSucc n => exact ⟨n, rfl⟩
  cases a with
  | ofNat m =>
    cases m with
    | zero =>
      constructor
      · rw [show Int.fmod (Int.ofNat 0) (Int.negSucc n) = 0 from rfl, Int.negSucc_eq]
        omega
      · rw [show Int.fmod (Int.ofNat 0) (Int.negSucc n) = 0 from rfl]
    | succ m' =>
      have heq : Int.fmod (Int.ofNat (m' + 1)) (Int.negSucc n)
          = Int.subNatNat (m' % (n + 1)) n := rfl
      have h1 : m' % (n + 1) < n + 1 := Nat.mod_lt _ (Nat.succ_pos n)
      rw [heq, Int.subNatNat_eq_coe, Int.negSucc_eq]
      omega
  | negSucc m =>
    have heq : Int.fmod (Int.negSucc m) (Int.negSucc n)
        = -Int.ofNat ((m + 1) % (n + 1)) := rfl
    have h1 : (m + 1) % (n + 1) < n + 1 := Nat.mod_lt _ (Nat.succ_pos n)
    rw [heq, Int.negSucc_eq, Int.ofNat_eq_coe]
    generalize (m + 1) % (n + 1) = p at h1 ⊢
    omega

/-- `Int.fdiv` is the floor of the true quotient: for a positive divisor
the quotient times the divisor brackets the dividend from below. -/
theorem fdiv_floor_pos {a b : Int} (hb : 0 < b) :
    b * Int.fdiv a b ≤ a ∧ a < b * (Int.fdiv a b + 1) := by
  have h := Int.fdiv_add_fmod a b
  have h1 := Int.fmod_nonneg' a hb
  have h2 := Int.fmod_lt_of_pos a hb
  have hx : b * (Int.fdiv a b + 1) = b * Int.fdiv a b + b := by ring
  constructor <;> [linarith; (rw [hx]; linarith)]

/-- `Int.fdiv` is the floor of the true quotient: for a negative divisor
the brackets reverse. -/
theorem fdiv_floor_neg {a b : Int} (hb : b < 0) :
    b * (Int.fdiv a b + 1) < a ∧ a ≤ b * Int.fdiv a b := by
  have h := Int.fdiv_add_fmod a b
  obtain ⟨h1, h2⟩ := fmod_neg_bounds a hb
  have hx : b * (Int.fdiv a b + 1) = b * Int.fdiv a b + b := by ring
  constructor <;> [(rw [hx]; linarith); linarith]

/-! ## Expressions never change the environment

The grammar confines `define` to statement level, so every expression
node satisfies `noDef`; the lemma shows that evaluating such a node
returns the environment dictionary exactly as it found it (function calls
restore it, everything else never writes it), keeps the state
`valOk`-closed, and produces a `valOk` value. -/

/-- Injectivity of a successful evaluation result. -/
theorem ok_pair_inj {α β : Type} {a c : α} {b d : β}
    (h : (Except.ok (a, b) : Except Err (α × β)) = .ok (c, d)) : a = c ∧ b = d := by
  cases h; exact ⟨rfl, rfl⟩

/-- `stOk` split into its two conjuncts. -/
theorem stOk_iff {s : St} :
    stOk s = true ↔
      s.env.all (fun kv => valOk kv.2) = true ∧ s.args.all valOk = true := by
  simp [stOk, Bool.and_eq_true]

/-- Evaluation of `define`-free nodes preserves `env` and `valOk`-closure,
at every fuel, for the node, node-list and argument-list evaluators. -/
theorem eval_preserves (fuel : Nat) :
    (∀ (e : Node) (s : St) (v : Val) (s' : St),
      noDef e = true → stOk s = true → evalNode fuel e s = .ok (v, s') →
        s'.env = s.env ∧ stOk s' = true ∧ valOk v = true) ∧
    (∀ (es : List Node) (s : St) (vs : List Val) (s' : St),
      noDefs es = true → stOk s = true → evalSeq fuel es s = .ok (vs, s') →
        s'.env = s.env ∧ stOk s' = true ∧ (∀ u ∈ vs, valOk u = true)) ∧
    (∀ (es : List Node) (s : St) (s' : St),
      noDefs es = true → stOk s = true → evalArgs fuel es s = .ok s' →
        s'.env = s.env ∧ stOk s' = true) := by
  induction fuel with
  | zero =>
    refine ⟨?_, ?_, ?_⟩
    · intro e s v s' _ _ h; cases h
    · intro es s vs s' _ _ h; cases h
    · intro es s s' _ _ h; cases h
  | succ fuel ih =>
    obtain ⟨ihN, ihS, ihA⟩ := ih
    refine ⟨?_, ?_, ?_⟩
    · intro e s v s' hnd hok h
      cases e with
      | number n =>
        simp only [evalNode] at h
        obtain ⟨rfl, rfl⟩ := ok_pair_inj h
        exact ⟨rfl, hok, rfl⟩
      | boolLit b =>
        simp only [evalNode] at h
        obtain ⟨rfl, rfl⟩ := ok_pair_inj h
        exact ⟨rfl, hok, rfl⟩
      | identifier x =>
        simp only [evalNode] at h
        obtain ⟨rfl, rfl⟩ := ok_pair_inj h
        refine ⟨rfl, hok, ?_⟩
        rcases hl : envLookup s.env x with _ | w
        · simp [hl, valOk]
        · simpa [hl] using envLookup_all (stOk_iff.mp hok).1 hl
      | defineStmt x e => simp [noDef] at hnd
      | printStmt e isNum =>
        simp only [noDef] at hnd
        simp only [evalNode, Bind.bind] at h
        obtain ⟨⟨w, s1⟩, hw, h⟩ := bind_eq_ok h
        obtain ⟨rfl, rfl⟩ := ok_pair_inj h
        obtain ⟨henv, hok1, _⟩ := ihN e s w s1 hnd hok hw
        exact ⟨henv, by simpa [stOk_iff] using (stOk_iff.mp hok1), rfl⟩
      | binaryOp op l r =>
        simp only [noDef, Bool.and_eq_true] at hnd
        simp only [evalNode, Bind.bind] at h
        obtain ⟨⟨vl, s1⟩, h1, h⟩ := bind_eq_ok h
        obtain ⟨⟨vr, s2⟩, h2, h⟩ := bind_eq_ok h
        obtain ⟨w, hw, h⟩ := bind_eq_ok h
        obtain ⟨rfl, rfl⟩ := ok_pair_inj h
        obtain ⟨he1, hok1, _⟩ := ihN l s vl s1 hnd.1 hok h1
        obtain ⟨he2, hok2, _⟩ := ihN r s1 vr s2 hnd.2 hok1 h2
        exact ⟨he2.trans he1, hok2, applyBin_valOk hw⟩
      | binaryOpV op l rs =>
        simp only [noDef, Bool.and_eq_true] at hnd
        simp only [evalNode, Bind.bind] at h
        obtain ⟨⟨vl, s1⟩, h1, h⟩ := bind_eq_ok h
        obtain ⟨⟨vs, s2⟩, h2, h⟩ := bind_eq_ok h
        obtain ⟨w, hw, h⟩ := bind_eq_ok h
        obtain ⟨rfl, rfl⟩ := ok_pair_inj h
        obtain ⟨he1, hok1, _⟩ := ihN l s vl s1 hnd.1 hok h1
        obtain ⟨he2, hok2, _⟩ := ihS rs s1 vs s2 hnd.2 hok1 h2
        exact ⟨he2.trans he1, hok2, applyVar_valOk hw⟩
      | logicalOp op ops =>
        simp only [noDef] at hnd
        simp only [evalNode, Bind.bind] at h
        obtain ⟨⟨vs, s1⟩, h1, h⟩ := bind_eq_ok h
        obtain ⟨w, hw, h⟩ := bind_eq_ok h
        obtain ⟨rfl, rfl⟩ := ok_pair_inj h
        obtain ⟨he1, hok1, hvs⟩ := ihS ops s vs s1 hnd hok h1
        exact ⟨he1, hok1, applyLogical_valOk hvs hw⟩
      | ifExp c t f =>
        simp only [noDef, Bool.and_eq_true] at hnd
        simp only [evalNode, Bind.bind] at h
        obtain ⟨⟨vc, s1⟩, h1, h⟩ := bind_eq_ok h
        obtain ⟨⟨vt, s2⟩, h2, h⟩ := bind_eq_ok h
        obtain ⟨⟨vf, s3⟩, h3, h⟩ := bind_eq_ok h
        obtain ⟨rfl, rfl⟩ := ok_pair_inj h
        obtain ⟨he1, hok1, _⟩ := ihN c s vc s1 hnd.1.1 hok h1
        obtain ⟨he2, hok2, hvt⟩ := ihN t s1 vt s2 hnd.1.2 hok1 h2
        obtain ⟨he3, hok3, hvf⟩ := ihN f s2 vf s3 hnd.2 hok2 h3
        refine ⟨(he3.trans he2).trans he1, hok3, ?_⟩
        by_cases hc : truthy vc = true <;> simp [hc, hvt, hvf]
      | funExp params body =>
        simp only [noDef] at hnd
        cases params with
        | nil =>
          simp only [evalNode, List.isEmpty_nil, if_true] at h
          exact ihN body s v s' hnd hok h
        | cons p ps =>
          simp only [evalNode, List.isEmpty_cons, Bool.false_eq_true, if_false] at h
          split_ifs at h with hlen
          · simp only [Bind.bind] at h
            obtain ⟨⟨vb, s2⟩, hb2, h⟩ := bind_eq_ok h
            obtain ⟨rfl, rfl⟩ := ok_pair_inj h
            have hinner : stOk { s with parms := p :: ps, env := buildEnv (p :: ps) s.args } = true := by
              simp only [stOk_iff]
              exact ⟨buildEnv_all (stOk_iff.mp hok).2, (stOk_iff.mp hok).2⟩
            obtain ⟨_, hok2, hvb⟩ := ihN body _ vb s2 hnd hinner hb2
            refine ⟨rfl, ?_, hvb⟩
            simp only [stOk_iff]
            exact ⟨(stOk_iff.mp hok).1, (stOk_iff.mp hok2).2⟩
          · obtain ⟨rfl, rfl⟩ := ok_pair_inj h
            refine ⟨rfl, ?_, hnd⟩
            simp only [stOk_iff]
            exact ⟨(stOk_iff.mp hok).1, (stOk_iff.mp hok).2⟩
      | funCall f argEs =>
        simp only [noDef, Bool.and_eq_true] at hnd
        cases f with
        | funExp params body =>
          simp only [evalNode, Bind.bind] at h
          obtain ⟨s2, hargs, h⟩ := bind_eq_ok h
          have hok0 : stOk { s with args := [] } = true := by
            simp only [stOk_iff]
            exact ⟨(stOk_iff.mp hok).1, rfl⟩
          obtain ⟨he2, hok2⟩ := ihA argEs _ s2 hnd.2 hok0 hargs
          obtain ⟨he3, hok3, hv⟩ := ihN (.funExp params body) s2 v s' hnd.1 hok2 h
          exact ⟨he3.trans he2, hok3, hv⟩
        | identifier name =>
          simp only [evalNode, Bind.bind] at h
          obtain ⟨s2, hargs, h⟩ := bind_eq_ok h
          have hok0 : stOk { s with args := [] } = true := by
            simp only [stOk_iff]
            exact ⟨(stOk_iff.mp hok).1, rfl⟩
          obtain ⟨he2, hok2⟩ := ihA argEs _ s2 hnd.2 hok0 hargs
          rcases hl : envLookup s2.env name with _ | w
          · rw [hl] at h
            obtain ⟨rfl, rfl⟩ := ok_pair_inj h
            exact ⟨he2, hok2, rfl⟩
          · rw [hl] at h
            have hwok : valOk w = true := envLookup_all (stOk_iff.mp hok2).1 hl
            cases w with
            | clos params body =>
              obtain ⟨he3, hok3, hv⟩ :=
                ihN (.funExp params body) s2 v s' (by simpa [valOk] using hwok) hok2 h
              exact ⟨he3.trans he2, hok3, hv⟩
            | none =>
              obtain ⟨rfl, rfl⟩ := ok_pair_inj h
              exact ⟨he2, hok2, rfl⟩
            | int k =>
              obtain ⟨rfl, rfl⟩ := ok_pair_inj h
              exact ⟨he2, hok2, rfl⟩
            | bool b =>
              obtain ⟨rfl, rfl⟩ := ok_pair_inj h
              exact ⟨he2, hok2, rfl⟩
        | number n => simp only [evalNode] at h; cases h
        | boolLit b => simp only [evalNode] at h; cases h
        | defineStmt a e => simp only [evalNode] at h; cases h
        | printStmt e b => simp only [evalNode] at h; cases h
        | binaryOp o l r => simp only [evalNode] at h; cases h
        | binaryOpV o l rs => simp only [evalNode] at h; cases h
        | logicalOp o os => simp only [evalNode] at h; cases h
        | ifExp c t g => simp only [evalNode] at h; cases h
        | funCall g as => simp only [evalNode] at h; cases h
    · intro es s vs s' hnd hok h
      cases es with
      | nil =>
        simp only [evalSeq] at h
        obtain ⟨rfl, rfl⟩ := ok_pair_inj h
        exact ⟨rfl, hok, by intro u hu; cases hu⟩
      | cons e rest =>
        simp only [noDefs, Bool.and_eq_true] at hnd
        simp only [evalSeq, Bind.bind] at h
        obtain ⟨⟨v1, s1⟩, h1, h⟩ := bind_eq_ok h
        obtain ⟨⟨vrest, s2⟩, h2, h⟩ := bind_eq_ok h
        obtain ⟨rfl, rfl⟩ := ok_pair_inj h
        obtain ⟨he1, hok1, hv1⟩ := ihN e s v1 s1 hnd.1 hok h1
        obtain ⟨he2, hok2, hvr⟩ := ihS rest s1 vrest s2 hnd.2 hok1 h2
        refine ⟨he2.trans he1, hok2, ?_⟩
        intro u hu
        rcases List.mem_cons.mp hu with rfl | hu
        · exact hv1
        · exact hvr u hu
    · intro es s s' hnd hok h
      cases es with
      | nil =>
        simp only [evalArgs] at h
        cases h
        exact ⟨rfl, hok⟩
      | cons e rest =>
        simp only [noDefs, Bool.and_eq_true] at hnd
        simp only [evalArgs, Bind.bind] at h
        obtain ⟨⟨v1, s1⟩, h1, h⟩ := bind_eq_ok h
        obtain ⟨he1, hok1, hv1⟩ := ihN e s v1 s1 hnd.1 hok h1
        have hmid : stOk { s1 with args := s1.args ++ [v1] } = true := by
          simp only [stOk_iff, List.all_append, List.all_cons, List.all_nil,
            Bool.and_eq_true]
          exact ⟨(stOk_iff.mp hok1).1, (stOk_iff.mp hok1).2, hv1, trivial⟩
        obtain ⟨he2, hok2⟩ := ihA rest _ s' hnd.2 hmid h
        exact ⟨he2.trans he1, hok2⟩

/-! ## The claims -/

/-- C1 counterexample.  The claim quantifies over *every* call whose
argument count equals the parameter count, but (1) a zero-parameter call
evaluates its body in the caller's environment — here the body reads the
caller's binding `x = 1` although `x` is no parameter — and (2) a nested
call inside an argument clears the global argument list, so the fresh
environment need not bind the parameters to the written argument values:
`((fun (a b) a) 1 ((fun (c) c) 2))` binds `a = 2, b = 2` and returns `2`,
not `1`. -/
theorem C1_counterexample :
    evalNode 9 (.funCall (.funExp [] (.identifier "x")) [])
        { initSt with env := [("x", Val.int 1)] }
      = .ok (.int 1, { env := [("x", Val.int 1)], parms := [], args := [], out := [] })
    ∧ evalNode 20 (.funCall (.funExp ["a", "b"] (.identifier "a"))
        [.number 1, .funCall (.funExp ["c"] (.identifier "c")) [.number 2]]) initSt
      = .ok (.int 2, { env := [], parms := ["a", "b"], args := [.int 2, .int 2], out := [] }) :=
  ⟨rfl, rfl⟩

/-- C1 (amended): for a call on a literal with a *non-empty* parameter
list, once the argument pass has produced state `s2`, if the accumulated
argument list matches the parameter count then the body is evaluated
against the fresh environment `buildEnv params s2.args` — which binds
nothing but the parameters — and afterwards the environment current after
the argument pass is restored verbatim. -/
theorem C1_call_installs_param_only_env (fuel : Nat) (params : List String)
    (body : Node) (argEs : List Node) (s s2 s3 : St) (vb : Val)
    (hne : params ≠ [])
    (hargs : evalArgs (fuel + 1) argEs { s with args := [] } = .ok s2)
    (hlen : params.length = s2.args.length)
    (hbody : evalNode fuel body
        { s2 with parms := params, env := buildEnv params s2.args } = .ok (vb, s3)) :
    evalNode (fuel + 2) (.funCall (.funExp params body) argEs) s
      = .ok (vb, { s3 with env := s2.env })
    ∧ (∀ x, x ∉ params → envLookup (buildEnv params s2.args) x = Option.none)
    ∧ (∀ name, envLookup s2.env name = some (.clos params body) →
        evalNode (fuel + 2) (.funCall (.identifier name) argEs) s
          = .ok (vb, { s3 with env := s2.env })) := by
  obtain ⟨p, ps, rfl⟩ : ∃ p ps, params = p :: ps := by
    cases params with
    | nil => exact absurd rfl hne
    | cons p ps => exact ⟨p, ps, rfl⟩
  refine ⟨?_, fun x hx => buildEnv_lookup_none hx, ?_⟩
  · simp [evalNode, hargs, Bind.bind, Except.bind, hlen, hbody]
  · intro name hname
    simp [evalNode, hargs, hname, Bind.bind, Except.bind, hlen, hbody]

/-- C1 witness: `((fun (a) a) 5)` evaluates to `5` under the fresh
environment `{a = 5}`, and that environment has no entry for `x`. -/
theorem C1_call_installs_param_only_env_witness :
    evalNode 10 (.funCall (.funExp ["a"] (.identifier "a")) [.number 5]) initSt
      = .ok (.int 5, { env := [], parms := ["a"], args := [.int 5], out := [] })
    ∧ envLookup (buildEnv ["a"] [.int 5]) "x" = Option.none
    ∧ evalNode 10 (.funCall (.identifier "f") [.number 5])
        { initSt with env := [("f", Val.clos ["a"] (.identifier "a"))] }
      = .ok (.int 5,
          ⟨[("f", Val.clos ["a"] (.identifier "a"))], ["a"], [.int 5], []⟩) := by
  have h := C1_call_installs_param_only_env 8 ["a"] (.identifier "a") [.number 5]
      initSt { env := [], parms := [], args := [.int 5], out := [] }
      { env := [("a", Val.int 5)], parms := ["a"], args := [.int 5], out := [] } (.int 5)
      (by simp) rfl rfl rfl
  have h2 := C1_call_installs_param_only_env 8 ["a"] (.identifier "a") [.number 5]
      { initSt with env := [("f", Val.clos ["a"] (.identifier "a"))] }
      ⟨[("f", Val.clos ["a"] (.identifier "a"))], [], [.int 5], []⟩
      { env := [("a", Val.int 5)], parms := ["a"], args := [.int 5], out := [] } (.int 5)
      (by simp) rfl rfl rfl
  exact ⟨h.1, h.2.1 "x" (by decide), h2.2.2 "f" rfl⟩

/-- C2 counterexample.  `((fun (a) a) 1 2)` as a statement evaluates
*successfully* — the run returns `.ok`, no `ArityError` or any other
error exists in the evaluator — and produces no output line. -/
theorem C2_counterexample :
    runStmts 14 [.funCall (.funExp ["a"] (.identifier "a")) [.number 1, .number 2]] initSt
      = .ok { env := [], parms := ["a"], args := [.int 1, .int 2], out := [] } := rfl

/-- C2 (amended): a call whose accumulated argument count differs from a
non-empty parameter count raises nothing: the body is left unevaluated
and the call's value is the function value itself (`node.value = node`),
so the statement prints nothing; a zero-parameter callee instead ignores
the arguments entirely and evaluates its body (silent truncation). -/
theorem C2_arity_mismatch_silent (fuel : Nat) (params : List String)
    (body : Node) (argEs : List Node) (s s2 : St)
    (hargs : evalArgs (fuel + 1) argEs { s with args := [] } = .ok s2) :
    (params ≠ [] → params.length ≠ s2.args.length →
      evalNode (fuel + 2) (.funCall (.funExp params body) argEs) s
        = .ok (.clos params body, { s2 with parms := params }))
    ∧ (∀ name, envLookup s2.env name = some (.clos params body) →
        params ≠ [] → params.length ≠ s2.args.length →
        evalNode (fuel + 2) (.funCall (.identifier name) argEs) s
          = .ok (.clos params body, { s2 with parms := params }))
    ∧ evalNode (fuel + 2) (.funCall (.funExp [] body) argEs) s
        = evalNode fuel body s2 := by
  refine ⟨?_, ?_, ?_⟩
  · intro hne hlen
    obtain ⟨p, ps, rfl⟩ : ∃ p ps, params = p :: ps := by
      cases params with
      | nil => exact absurd rfl hne
      | cons p ps => exact ⟨p, ps, rfl⟩
    simp only [List.length_cons] at hlen
    simp [evalNode, hargs, Bind.bind, Except.bind, hlen]
  · intro name hname hne hlen
    obtain ⟨p, ps, rfl⟩ : ∃ p ps, params = p :: ps := by
      cases params with
      | nil => exact absurd rfl hne
      | cons p ps => exact ⟨p, ps, rfl⟩
    simp only [List.length_cons] at hlen
    simp [evalNode, hargs, hname, Bind.bind, Except.bind, hlen]
  · simp [evalNode, hargs, Bind.bind, Except.bind]

/-- C2 witness: the one-parameter call with two arguments yields the
closure itself, and a zero-parameter callee with two arguments discards
them and returns its body's value. -/
theorem C2_arity_mismatch_silent_witness :
    evalNode 12 (.funCall (.funExp ["a"] (.identifier "a")) [.number 1, .number 2]) initSt
      = .ok (.clos ["a"] (.identifier "a"),
          { env := [], parms := ["a"], args := [.int 1, .int 2], out := [] })
    ∧ evalNode 12 (.funCall (.funExp [] (.number 9)) [.number 1, .number 2]) initSt
      = .ok (.int 9, { env := [], parms := [], args := [.int 1, .int 2], out := [] })
    ∧ evalNode 12 (.funCall (.identifier "f") [.number 1, .number 2])
        { initSt with env := [("f", Val.clos ["a"] (.identifier "a"))] }
      = .ok (.clos ["a"] (.identifier "a"),
          ⟨[("f", Val.clos ["a"] (.identifier "a"))], ["a"], [.int 1, .int 2], []⟩) := by
  have h1 := C2_arity_mismatch_silent 10 ["a"] (.identifier "a") [.number 1, .number 2]
      initSt { env := [], parms := [], args := [.int 1, .int 2], out := [] } rfl
  have h2 := C2_arity_mismatch_silent 10 [] (.number 9) [.number 1, .number 2]
      initSt { env := [], parms := [], args := [.int 1, .int 2], out := [] } rfl
  have h3 := C2_arity_mismatch_silent 10 ["a"] (.identifier "a") [.number 1, .number 2]
      { initSt with env := [("f", Val.clos ["a"] (.identifier "a"))] }
      ⟨[("f", Val.clos ["a"] (.identifier "a"))], [], [.int 1, .int 2], []⟩ rfl
  exact ⟨h1.1 (by simp) (by decide), h2.2.2.trans rfl,
    h3.2.1 "f" rfl (by simp) (by decide)⟩

/-- C3 counterexample.  A zero-parameter `Fun` literal evaluates its body
at once (`(fun () 5)` has value `5`, not a function value), and a
one-parameter literal evaluated while the global argument list happens to
hold one leftover value also evaluates its body immediately, against that
value. -/
theorem C3_counterexample :
    evalNode 2 (.funExp [] (.number 5)) initSt = .ok (.int 5, initSt)
    ∧ evalNode 3 (.funExp ["b"] (.identifier "b")) { initSt with args := [.int 7] }
      = .ok (.int 7, { env := [], parms := ["b"], args := [.int 7], out := [] }) :=
  ⟨rfl, rfl⟩

/-- C3 (amended): a `Fun` literal with a non-empty parameter list whose
length differs from the pending global argument list yields the function
value without evaluating the body (the result does not depend on the
remaining fuel) and without touching the environment; a zero-parameter
literal instead evaluates its body on the spot, in the current
environment. -/
theorem C3_fun_literal_value (fuel : Nat) (params : List String) (body : Node) (s : St) :
    (params ≠ [] → params.length ≠ s.args.length →
      evalNode (fuel + 1) (.funExp params body) s
        = .ok (.clos params body, { s with parms := params }))
    ∧ evalNode (fuel + 1) (.funExp [] body) s = evalNode fuel body s := by
  constructor
  · intro hne hlen
    obtain ⟨p, ps, rfl⟩ : ∃ p ps, params = p :: ps := by
      cases params with
      | nil => exact absurd rfl hne
      | cons p ps => exact ⟨p, ps, rfl⟩
    simp only [List.length_cons] at hlen
    simp [evalNode, hlen]
  · simp [evalNode]

/-- C3 witness: `(fun (q) 3)` at program start (no pending arguments)
evaluates to the function value with the body untouched. -/
theorem C3_fun_literal_value_witness :
    evalNode 5 (.funExp ["q"] (.number 3)) initSt
      = .ok (.clos ["q"] (.number 3), { env := [], parms := ["q"], args := [], out := [] }) := by
  have h := C3_fun_literal_value 4 ["q"] (.number 3) initSt
  exact h.1 (by simp) (by decide)

/-- C4 counterexample.  An unbound identifier used as a value evaluates
without any error to the unset value `None`, and a call on an unbound
callee name likewise returns `.ok` with value `None` — the evaluator has
no `UndefinedName` or `UndefinedFunction` failure at all. -/
theorem C4_counterexample :
    evalNode 1 (.identifier "zzz") initSt = .ok (.none, initSt)
    ∧ evalNode 9 (.funCall (.identifier "fff") [.number 1]) initSt
      = .ok (.none, { env := [], parms := [], args := [.int 1], out := [] }) :=
  ⟨rfl, rfl⟩

/-- C4 (amended): an identifier with no binding evaluates to the unset
value `None`, silently; a call whose callee name is unbound evaluates its
arguments and then yields `None`, silently; a callee bound to a
non-function value (here an integer) yields that value itself. -/
theorem C4_missing_names_silent (fuel : Nat) (x name : String) (k : Int)
    (argEs : List Node) (s s2 : St) :
    (envLookup s.env x = Option.none →
      evalNode (fuel + 1) (.identifier x) s = .ok (.none, s))
    ∧ (evalArgs (fuel + 1) argEs { s with args := [] } = .ok s2 →
        envLookup s2.env name = Option.none →
        evalNode (fuel + 2) (.funCall (.identifier name) argEs) s = .ok (.none, s2))
    ∧ (evalArgs (fuel + 1) argEs { s with args := [] } = .ok s2 →
        envLookup s2.env name = some (.int k) →
        evalNode (fuel + 2) (.funCall (.identifier name) argEs) s = .ok (.int k, s2)) := by
  refine ⟨?_, ?_, ?_⟩
  · intro h
    simp [evalNode, h]
  · intro hargs h
    simp [evalNode, hargs, h, Bind.bind, Except.bind]
  · intro hargs h
    simp [evalNode, hargs, h, Bind.bind, Except.bind]

/-- C4 witness: the three silent outcomes at concrete inputs. -/
theorem C4_missing_names_silent_witness :
    evalNode 1 (.identifier "x") initSt = .ok (.none, initSt)
    ∧ evalNode 20 (.funCall (.identifier "g") [.number 1]) initSt
      = .ok (.none, { env := [], parms := [], args := [.int 1], out := [] })
    ∧ evalNode 20 (.funCall (.identifier "f") [.number 1])
        { initSt with env := [("f", Val.int 3)] }
      = .ok (.int 3, { env := [("f", Val.int 3)], parms := [], args := [.int 1], out := [] }) := by
  have h1 := (C4_missing_names_silent 0 "x" "g" 3 [.number 1] initSt
      { env := [], parms := [], args := [.int 1], out := [] }).1 rfl
  have h2 := (C4_missing_names_silent 18 "x" "g" 3 [.number 1] initSt
      { env := [], parms := [], args := [.int 1], out := [] }).2.1 rfl rfl
  have h3 := (C4_missing_names_silent 18 "x" "f" 3 [.number 1]
      { initSt with env := [("f", Val.int 3)] }
      { env := [("f", Val.int 3)], parms := [], args := [.int 1], out := [] }).2.2 rfl rfl
  exact ⟨h1, h2, h3⟩

/-- C5: an `and`/`or` node first evaluates *all* its operand expressions
in sequence — exactly the pass `evalSeq` makes, so every operand's state
effects land in the final state `s'` even when an earlier operand already
decides the result — and, when every operand value is boolean, the value
is their conjunction (for `and`) resp. disjunction (for `or`). -/
theorem C5_logical_eager_eval (fuel : Nat) (ops : List Node) (s s' : St)
    (vs : List Val)
    (hseq : evalSeq fuel ops s = .ok (vs, s'))
    (hb : ∀ v ∈ vs, ∃ b, v = Val.bool b) :
    evalNode (fuel + 1) (.logicalOp "and" ops) s = .ok (.bool (vs.all truthy), s')
    ∧ evalNode (fuel + 1) (.logicalOp "or" ops) s = .ok (.bool (vs.any truthy), s') := by
  constructor
  · simp [evalNode, hseq, Bind.bind, Except.bind, applyLogical, andLoop_bools hb true]
  · simp [evalNode, hseq, Bind.bind, Except.bind, applyLogical, orLoop_bools hb false]

/-- C5 witness: the first operand of the `and` is already `#f`, yet the
call in the second operand still runs — its trace (`parms := ["c"]`,
`args := [#t]`) is visible in the final state — and the values are the
conjunction `#f` resp. disjunction `#t`. -/
theorem C5_logical_eager_eval_witness :
    evalNode 20 (.logicalOp "and"
        [.boolLit false, .funCall (.funExp ["c"] (.identifier "c")) [.boolLit true]]) initSt
      = .ok (.bool false, { env := [], parms := ["c"], args := [.bool true], out := [] })
    ∧ evalNode 20 (.logicalOp "or"
        [.boolLit false, .funCall (.funExp ["c"] (.identifier "c")) [.boolLit true]]) initSt
      = .ok (.bool true, { env := [], parms := ["c"], args := [.bool true], out := [] }) := by
  have h := C5_logical_eager_eval 19
      [.boolLit false, .funCall (.funExp ["c"] (.identifier "c")) [.boolLit true]]
      initSt { env := [], parms := ["c"], args := [.bool true], out := [] }
      [.bool false, .bool true] rfl
      (by intro v hv
          simp only [List.mem_cons, List.not_mem_nil, or_false] at hv
          rcases hv with rfl | rfl
          · exact ⟨false, rfl⟩
          · exact ⟨true, rfl⟩)
  exact ⟨h.1, h.2⟩

/-- C6: an `if` node evaluates its condition, its true branch *and* its
false branch, threading the state through all three, and only then
selects the true-branch value when the condition is `true` and the
false-branch value otherwise. -/
theorem C6_if_evaluates_both_branches (fuel : Nat) (c t f : Node)
    (s s1 s2 s3 : St) (vc vt vf : Val) (bc : Bool)
    (h1 : evalNode fuel c s = .ok (vc, s1))
    (h2 : evalNode fuel t s1 = .ok (vt, s2))
    (h3 : evalNode fuel f s2 = .ok (vf, s3))
    (hb : vc = .bool bc) :
    evalNode (fuel + 1) (.ifExp c t f) s = .ok (if bc then vt else vf, s3) := by
  subst hb
  simp [evalNode, h1, h2, h3, Bind.bind, Except.bind, truthy]

/-- C6 witness: the condition is `#t`, yet the call in the untaken false
branch still runs — its trace (`parms := ["c"]`, `args := [2]`) is
visible in the final state — while the result is the true branch's `1`. -/
theorem C6_if_evaluates_both_branches_witness :
    evalNode 20 (.ifExp (.boolLit true) (.number 1)
        (.funCall (.funExp ["c"] (.identifier "c")) [.number 2])) initSt
      = .ok (.int 1, { env := [], parms := ["c"], args := [.int 2], out := [] }) := by
  have h := C6_if_evaluates_both_branches 19 (.boolLit true) (.number 1)
      (.funCall (.funExp ["c"] (.identifier "c")) [.number 2]) initSt initSt initSt
      { env := [], parms := ["c"], args := [.int 2], out := [] }
      (.bool true) (.int 1) (.int 2) true rfl rfl rfl rfl
  exact h

/-- C7: `/` is floor division and `mod` the floor modulus: for `b ≠ 0`
the quotient is `Int.fdiv a b`, which brackets `a` between `b*q` and
`b*(q+1)` in the order dictated by `b`'s sign (the floor
characterisation), the modulus `Int.fmod a b` is zero or has the sign of
the divisor and is bounded by it, and a zero divisor raises the
arithmetic fault (`ZeroDivisionError`, the embedded `Err.zeroDivision`). -/
theorem C7_floor_division_and_mod (fuel : Nat) (a b : Int) (s : St) :
    (b ≠ 0 →
      evalNode (fuel + 2) (.binaryOp "/" (.number a) (.number b)) s
        = .ok (.int (Int.fdiv a b), s)
      ∧ evalNode (fuel + 2) (.binaryOp "mod" (.number a) (.number b)) s
        = .ok (.int (Int.fmod a b), s))
    ∧ (0 < b → b * Int.fdiv a b ≤ a ∧ a < b * (Int.fdiv a b + 1)
        ∧ 0 ≤ Int.fmod a b ∧ Int.fmod a b < b)
    ∧ (b < 0 → b * (Int.fdiv a b + 1) < a ∧ a ≤ b * Int.fdiv a b
        ∧ b < Int.fmod a b ∧ Int.fmod a b ≤ 0)
    ∧ evalNode (fuel + 2) (.binaryOp "/" (.number a) (.number 0)) s
        = .error .zeroDivision
    ∧ evalNode (fuel + 2) (.binaryOp "mod" (.number a) (.number 0)) s
        = .error .zeroDivision := by
  refine ⟨?_, ?_, ?_, ?_, ?_⟩
  · intro hb
    constructor <;> simp [evalNode, Bind.bind, Except.bind, applyBin, toArith, hb]
  · intro hb
    obtain ⟨h1, h2⟩ := fdiv_floor_pos hb
    exact ⟨h1, h2, Int.fmod_nonneg' a hb, Int.fmod_lt_of_pos a hb⟩
  · intro hb
    obtain ⟨h1, h2⟩ := fdiv_floor_neg hb
    obtain ⟨h3, h4⟩ := fmod_neg_bounds a hb
    exact ⟨h1, h2, h3, h4⟩
  · simp [evalNode, Bind.bind, Except.bind, applyBin, toArith]
  · simp [evalNode, Bind.bind, Except.bind, applyBin, toArith]

/-- C7 witness: `(/ -7 2)` is `-4` (floor, not truncation), `(mod 5 -3)`
is `-1` (sign of the divisor), `(/ 1 0)` raises. -/
theorem C7_floor_division_and_mod_witness :
    evalNode 2 (.binaryOp "/" (.number (-7)) (.number 2)) initSt
      = .ok (.int (-4), initSt)
    ∧ evalNode 2 (.binaryOp "mod" (.number 5) (.number (-3))) initSt
      = .ok (.int (-1), initSt)
    ∧ evalNode 2 (.binaryOp "/" (.number 1) (.number 0)) initSt
      = .error .zeroDivision := by
  have h1 := (C7_floor_division_and_mod 0 (-7) 2 initSt).1 (by decide)
  have h2 := (C7_floor_division_and_mod 0 5 (-3) initSt).1 (by decide)
  have h3 := (C7_floor_division_and_mod 0 1 0 initSt).2.2.2.1
  exact ⟨h1.1, h2.2, h3⟩

/-- C8 counterexample.  `(+ #t #t)` evaluates to the integer `2` with no
error at all: Python's `bool` is an `int` subclass, so boolean operands
do not raise the `TypeError` the claim asserts for every non-integer
operand kind. -/
theorem C8_counterexample :
    evalNode 3 (.binaryOpV "+" (.boolLit true) [.boolLit true]) initSt
      = .ok (.int 2, initSt) := rfl

/-- C8 (amended): for `+ - * / mod > <` an operand that is an integer or
a boolean passes (booleans coerce to 1/0), while a function value or the
unset `None` raises `TypeError`; variadic `=` never raises — it is a pure
comparison.  The last conjunct shows the `TypeError` arising in a full
evaluation: `(- 1 (fun (x) x))` faults (when no one-element argument list
is pending, so the literal stays unevaluated). -/
theorem C8_arith_operand_kinds :
    toArith (.bool true) = .ok 1
    ∧ toArith (.bool false) = .ok 0
    ∧ (∀ p b, toArith (.clos p b) = .error .typeError)
    ∧ toArith .none = .error .typeError
    ∧ (∀ op vl vr p b, op ∈ ["+", "-", "*", "/", "mod", ">", "<"] →
        applyBin op (.clos p b) vr = .error .typeError
        ∧ applyBin op vl (.clos p b) = .error .typeError)
    ∧ (∀ vl vs, ∃ r, applyVar "=" vl vs = .ok (.bool r))
    ∧ (∀ (fuel : Nat) (n : Int) (s : St), s.args.length ≠ 1 →
        evalNode (fuel + 2) (.binaryOp "-" (.number n)
          (.funExp ["x"] (.identifier "x"))) s = .error .typeError) := by
  refine ⟨rfl, rfl, fun p b => rfl, rfl, ?_, ?_, ?_⟩
  · intro op vl vr p b hop
    simp only [List.mem_cons, List.not_mem_nil, or_false] at hop
    rcases hop with rfl | rfl | rfl | rfl | rfl | rfl | rfl <;>
      exact ⟨by cases vr <;> simp [applyBin, toArith, Bind.bind, Except.bind],
             by cases vl <;> simp [applyBin, toArith, Bind.bind, Except.bind]⟩
  · intro vl vs
    exact ⟨vs.all (fun v => pyEq vl v), rfl⟩
  · intro fuel n s hlen
    have hlen' : ¬ ((1 : Nat) = s.args.length) := fun h => hlen h.symm
    simp [evalNode, Bind.bind, Except.bind, hlen', applyBin, toArith]

/-- C8 witness: `(- 1 (fun (x) x))` at program start raises `TypeError`. -/
theorem C8_arith_operand_kinds_witness :
    evalNode 2 (.binaryOp "-" (.number 1) (.funExp ["x"] (.identifier "x"))) initSt
      = .error .typeError := by
  exact C8_arith_operand_kinds.2.2.2.2.2.2 0 1 initSt (by decide)

/-- C9: calling a zero-parameter function literal with zero arguments
evaluates the body directly in the caller's current environment — no
fresh parameter dictionary is installed, only the global argument list is
cleared — so the body reads every binding visible at the call site, as
the second conjunct shows for a body that is a bound identifier. -/
theorem C9_zero_param_call_uses_caller_env (fuel : Nat) (body : Node) (s : St) :
    evalNode (fuel + 2) (.funCall (.funExp [] body) []) s
      = evalNode fuel body { s with args := [] }
    ∧ (∀ (x : String) (v : Val), envLookup s.env x = some v →
        evalNode (fuel + 3) (.funCall (.funExp [] (.identifier x)) []) s
          = .ok (v, { s with args := [] })) := by
  constructor
  · simp [evalNode, evalArgs, Bind.bind, Except.bind]
  · intro x v hx
    simp [evalNode, evalArgs, Bind.bind, Except.bind, hx]

/-- C9 witness: with `x = 1` bound at top level, `((fun () x) …)` with no
arguments returns `1`, read from the caller's environment. -/
theorem C9_zero_param_call_uses_caller_env_witness :
    evalNode 13 (.funCall (.funExp [] (.identifier "x")) [])
        { initSt with env := [("x", Val.int 1)] }
      = .ok (.int 1, { env := [("x", Val.int 1)], parms := [], args := [], out := [] }) := by
  have h := (C9_zero_param_call_uses_caller_env 10 (.identifier "x")
      { initSt with env := [("x", Val.int 1)] }).2 "x" (.int 1) rfl
  exact h

/-- C10: a top-level statement that is no `define` — an expression
statement or a print statement, both `define`-free by the grammar —
returns the environment dictionary exactly as it found it (given the
run-reachable invariant that environment and pending-argument values are
themselves `define`-free closures at worst); a `define` statement
evaluates its expression and then writes exactly the binding `x = v`,
which persists in the resulting environment. -/
theorem C10_only_define_persists (fuel : Nat) (st e : Node) (x : String)
    (s s' : St) (v : Val) :
    (noDef st = true → stOk s = true → evalNode fuel st s = .ok (v, s') →
      s'.env = s.env)
    ∧ (evalNode fuel e s = .ok (v, s') →
        evalNode (fuel + 1) (.defineStmt x e) s
          = .ok (.none, { s' with env := envSet s'.env x v })
        ∧ envLookup (envSet s'.env x v) x = some v) := by
  constructor
  · intro hnd hok h
    exact ((eval_preserves fuel).1 st s v s' hnd hok h).1
  · intro h
    refine ⟨by simp [evalNode, h, Bind.bind, Except.bind], ?_⟩
    rw [envLookup_envSet]
    simp

/-- C10 witness: a print statement leaves the (empty) environment intact;
`(define y 4)` extends it with exactly `y = 4`. -/
theorem C10_only_define_persists_witness :
    ({ env := [], parms := [], args := [], out := ["1"] } : St).env = initSt.env
    ∧ evalNode 3 (.defineStmt "y" (.number 4)) initSt
      = .ok (.none, { initSt with env := envSet initSt.env "y" (.int 4) })
    ∧ envLookup (envSet initSt.env "y" (.int 4)) "y" = some (.int 4) := by
  have h1 := (C10_only_define_persists 2 (.printStmt (.number 1) true) (.number 1)
      "y" initSt { env := [], parms := [], args := [], out := ["1"] } (.none)).1
      rfl rfl rfl
  have h2 := (C10_only_define_persists 2 (.printStmt (.number 1) true) (.number 4)
      "y" initSt initSt (.int 4)).2 rfl
  exact ⟨h1, h2.1, h2.2⟩
